import Mathlib

/-!
Verification of the GDB Remote Serial Protocol flash-programming client
(`src/gdb_client.rs`, `src/agdi_impl.rs`).

Bytes are modelled as `Nat` (values `< 256` in all uses that matter; the
wrapping `u8`/`u32` arithmetic of the source is written out as explicit
`% 256` / `% 2^32`).  Stateful code over the scripted `MockTransport`
test double of the source is modelled by explicit state passing: each
operation returns a `(result, new state)` pair, mirroring Rust's `&mut
self` methods whose side effects persist even when they return `Err`.
-/

/-- Byte constant for the ASCII character `#`. -/
def byteHash : Nat := 35

/-- Byte constant for the ASCII character `$`. -/
def byteDollar : Nat := 36

/-- Byte constant for the ASCII character `*`. -/
def byteStar : Nat := 42

/-- Byte constant for the ASCII character `}`. -/
def byteRBrace : Nat := 125

/-- The four protocol-significant bytes that must be escaped
(`gdb_client.rs` line 103: `b'#' | b'$' | b'*' | b'}'`). -/
def isSpecialByte (b : Nat) : Bool :=
  b = byteHash || b = byteDollar || b = byteStar || b = byteRBrace

/-- `GdbClient::escape_binary` (`gdb_client.rs` lines 99-111): each of the
four special bytes becomes `}` followed by the byte XOR `0x20`; every
other byte is emitted unchanged. -/
def escapeBinary : List Nat → List Nat
  | [] => []
  | b :: rest =>
    if isSpecialByte b then
      byteRBrace :: (b ^^^ 32) :: escapeBinary rest
    else
      b :: escapeBinary rest

/-- Unescape operation, modelled from the spec wording (section 4.2): it
reverses the escape mapping, turning `}` followed by a byte `x` back into
`x XOR 0x20` and leaving every other byte unchanged.  No unescape exists
in the source; this definition exists to state the round-trip law.  A
trailing lone `}` (which a well-formed escaped stream never contains) is
emitted unchanged. -/
def unescapeSpec : List Nat → List Nat
  | [] => []
  | [b] => [b]
  | b :: x :: rest =>
    if b = byteRBrace then
      (x ^^^ 32) :: unescapeSpec rest
    else
      b :: unescapeSpec (x :: rest)

/-- `GdbClient::checksum` (`gdb_client.rs` lines 75-77): 8-bit wrapping
sum (`u8::wrapping_add` fold) of all bytes. -/
def checksum (data : List Nat) : Nat :=
  data.foldl (fun s b => (s + b) % 256) 0

/-- Byte of the lowercase hexadecimal digit for a value `< 16`
(`0`-`9` then `a`-`f`). -/
def hexDigitByte (d : Nat) : Nat :=
  if d < 10 then 48 + d else 87 + d

/-- The two bytes produced by Rust's `format!("{:02x}", n)` for `n < 256`:
exactly two lowercase hexadecimal digits. -/
def hexLowerTwo (n : Nat) : List Nat :=
  [hexDigitByte (n / 16), hexDigitByte (n % 16)]

/-- State of the `MockTransport` test double (`gdb_client.rs` lines
249-316): the packets sent so far, a scripted receive buffer with a read
cursor, and a connectivity flag. -/
structure MockTransport where
  sentPackets : List (List Nat)
  recvBuffer : List Nat
  recvPos : Nat
  connected : Bool
deriving DecidableEq, Repr

/-- Error kinds surfaced by the transport and the RSP client. -/
inductive IoError where
  | notConnected
  | unexpectedEof
  | nack
  | unexpectedAck (b : Nat)
deriving DecidableEq, Repr

/-- `MockTransport::send` (`gdb_client.rs` lines 295-301): fails with a
`NotConnected` error while disconnected, otherwise records the packet. -/
def MockTransport.sendBytes (t : MockTransport) (data : List Nat) :
    Except IoError Unit × MockTransport :=
  if t.connected then
    (.ok (), { t with sentPackets := t.sentPackets ++ [data] })
  else
    (.error .notConnected, t)

/-- `MockTransport::recv_exact` (`gdb_client.rs` lines 303-315): fails with
`NotConnected` while disconnected, fails with an EOF error (without
consuming) when fewer than `n` scripted bytes remain, otherwise returns
the next `n` bytes and advances the cursor. -/
def MockTransport.recvExact (t : MockTransport) (n : Nat) :
    Except IoError (List Nat) × MockTransport :=
  if ¬ t.connected then
    (.error .notConnected, t)
  else if t.recvBuffer.length < t.recvPos + n then
    (.error .unexpectedEof, t)
  else
    (.ok ((t.recvBuffer.drop t.recvPos).take n),
      { t with recvPos := t.recvPos + n })

/-- State of `GdbClient` (`gdb_client.rs` lines 62-65) over the mock
transport: the owned transport plus the `connected` boolean. -/
structure GdbClientM where
  transport : MockTransport
  connected : Bool
deriving DecidableEq, Repr

/-- `GdbClient::new` (`gdb_client.rs` lines 68-73): wraps a transport with
`connected = false`. -/
def GdbClientM.new (t : MockTransport) : GdbClientM :=
  ⟨t, false⟩

/-- `GdbClient::connect` (`gdb_client.rs` lines 79-87): a no-op when the
flag is already set; otherwise calls the transport's connect (which for
the mock always succeeds and sets its flag) and records `connected =
true`. -/
def GdbClientM.connect (c : GdbClientM) : Except IoError Unit × GdbClientM :=
  if c.connected then
    (.ok (), c)
  else
    (.ok (), ⟨{ c.transport with connected := true }, true⟩)

/-- `GdbClient::disconnect` (`gdb_client.rs` lines 89-97): a no-op when the
flag is already clear; otherwise closes the transport (for the mock:
clears its flag) and records `connected = false`. -/
def GdbClientM.disconnect (c : GdbClientM) : Except IoError Unit × GdbClientM :=
  if ¬ c.connected then
    (.ok (), c)
  else
    (.ok (), ⟨{ c.transport with connected := false }, false⟩)

/-- `GdbClient::read_packet` (`gdb_client.rs` lines 121-147).  The two
`recv_byte` loops of the source are transliterated with `takeWhile`: skip
bytes until a `$` (line 123-127), accumulate bytes until a `#` (lines
131-137), consume two checksum bytes that are discarded unverified (lines
140-141), send a single `+` acknowledgement (line 144) and return the
accumulated payload.  On end-of-input inside a loop the cursor has been
advanced over everything consumed, matching one-byte-at-a-time reads; the
two-byte checksum `recv_exact` fails without consuming. -/
def GdbClientM.readPacket (c : GdbClientM) :
    Except IoError (List Nat) × GdbClientM :=
  let t := c.transport
  if ¬ t.connected then
    (.error .notConnected, c)
  else
    let rem := t.recvBuffer.drop t.recvPos
    let junk := rem.takeWhile (fun b => b ≠ byteDollar)
    if junk.length = rem.length then
      (.error .unexpectedEof,
        ⟨{ t with recvPos := t.recvBuffer.length }, c.connected⟩)
    else
      let rest := rem.drop (junk.length + 1)
      let payload := rest.takeWhile (fun b => b ≠ byteHash)
      if payload.length = rest.length then
        (.error .unexpectedEof,
          ⟨{ t with recvPos := t.recvBuffer.length }, c.connected⟩)
      else
        let rest2 := rest.drop (payload.length + 1)
        if rest2.length < 2 then
          (.error .unexpectedEof,
            ⟨{ t with recvPos := t.recvPos + junk.length + payload.length + 2 },
              c.connected⟩)
        else
          (.ok payload,
            ⟨{ t with
                recvPos := t.recvPos + junk.length + payload.length + 4,
                sentPackets := t.sentPackets ++ [[43]] }, c.connected⟩)

/-- `GdbClient::send_cmd` (`gdb_client.rs` lines 151-179): build the frame
`$<prefix><binary>#<2 lowercase hex checksum digits>`, send it, read one
acknowledgement byte (`+` proceed, `-` NACK failure, anything else an
unexpected-ACK failure), then read and return the response packet.  Note
that no `connected`-flag check appears anywhere on this path; failures
while disconnected come from the transport itself. -/
def GdbClientM.sendCmd (c : GdbClientM) (pre : List Nat) (binary : List Nat) :
    Except IoError (List Nat) × GdbClientM :=
  let body := pre ++ binary
  let pkt := byteDollar :: (body ++ byteHash :: hexLowerTwo (checksum body))
  match c.transport.sendBytes pkt with
  | (.error e, t1) => (.error e, ⟨t1, c.connected⟩)
  | (.ok _, t1) =>
    match t1.recvExact 1 with
    | (.error e, t2) => (.error e, ⟨t2, c.connected⟩)
    | (.ok bs, t2) =>
      let b := bs.headD 0
      if b = 43 then
        GdbClientM.readPacket ⟨t2, c.connected⟩
      else if b = 45 then
        (.error .nack, ⟨t2, c.connected⟩)
      else
        (.error (.unexpectedAck b), ⟨t2, c.connected⟩)

/-- `MockTransport::rsp_packet` (`gdb_client.rs` lines 273-281): a
well-formed scripted response frame. -/
def rspPacket (payload : List Nat) : List Nat :=
  byteDollar :: (payload ++ byteHash :: hexLowerTwo (checksum payload))

/-- ASCII whitespace test used to model Rust's `str::trim` (the source
inputs only ever contain ASCII whitespace; Rust trims full Unicode
whitespace). -/
def isWsChar (c : Char) : Bool :=
  c = ' ' || c = '\t' || c = '\n' || c = '\r'

/-- Value of a hexadecimal digit character, `none` for a non-digit
(Rust's `from_str_radix` with radix 16 accepts both letter cases). -/
def hexCharVal (c : Char) : Option Nat :=
  if '0' ≤ c ∧ c ≤ '9' then some (c.toNat - 48)
  else if 'a' ≤ c ∧ c ≤ 'f' then some (c.toNat - 87)
  else if 'A' ≤ c ∧ c ≤ 'F' then some (c.toNat - 55)
  else none

/-- Accumulate hexadecimal digits left to right; `none` on the first
non-digit character. -/
def hexDigitsVal : List Char → Nat → Option Nat
  | [], acc => some acc
  | c :: rest, acc =>
    match hexCharVal c with
    | some d => hexDigitsVal rest (acc * 16 + d)
    | none => none

/-- `u64::from_str_radix(s, 16)` on a character list: an optional leading
`+` sign followed by one or more hexadecimal digits; empty digit strings,
stray characters and values past `u64::MAX` are errors. -/
def fromStrRadix16 (l : List Char) : Option Nat :=
  let digits := match l with
    | '+' :: rest => rest
    | _ => l
  match digits with
  | [] => none
  | _ =>
    match hexDigitsVal digits 0 with
    | some v => if v < 2 ^ 64 then some v else none
    | none => none

/-- `parse_hex_u64` (`gdb_client.rs` lines 318-327): trim whitespace,
strip a single `0x` or `0X` prefix if present, then parse the rest as a
base-16 `u64`. -/
def parseHexU64 (s : String) : Option Nat :=
  let l := s.data.dropWhile isWsChar
  let l := (l.reverse.dropWhile isWsChar).reverse
  let l := match l with
    | '0' :: 'x' :: rest => rest
    | '0' :: 'X' :: rest => rest
    | _ => l
  fromStrRadix16 l

/-- `FlashRegion` (`gdb_client.rs` lines 399-405). -/
structure FlashRegion where
  start : Nat
  length : Nat
  blocksize : Option Nat
deriving DecidableEq, Repr

/-- Events delivered by the `quick_xml` reader (with `trim_text(true)`,
so whitespace-only text nodes are dropped and text is trimmed) as consumed
by `parse_flash_regions_from_xml`: start/end/empty-element tags with name
and attribute list, text nodes (already entity-unescaped), end of
document, and a reader error for a malformed document. -/
inductive XEvent where
  | startTag (name : String) (attrs : List (String × String))
  | endTag (name : String)
  | text (s : String)
  | emptyTag (name : String) (attrs : List (String × String))
  | eof
  | err
deriving DecidableEq, Repr

/-- Result of scanning a `memory` start tag's attributes
(`gdb_client.rs` lines 341-360): fold over the attributes updating
`start`, `length` and `is_flash`; a `start` or `length` value rejected by
`parse_hex_u64` hits the source's `.unwrap()` and panics (`none`). -/
def scanMemoryAttrs : List (String × String) → Nat → Nat → Bool →
    Option (Nat × Nat × Bool)
  | [], s, l, f => some (s, l, f)
  | (k, v) :: rest, s, l, f =>
    if k = "type" then
      scanMemoryAttrs rest s l (v = "flash")
    else if k = "start" then
      match parseHexU64 v with
      | some n => scanMemoryAttrs rest n l f
      | none => none
    else if k = "length" then
      match parseHexU64 v with
      | some n => scanMemoryAttrs rest s n f
      | none => none
    else
      scanMemoryAttrs rest s l f

/-- Loop state of `parse_flash_regions_from_xml`: still running (with the
accumulated regions and the optional current region), finished (loop left
via `Eof`), failed with the reader's error value, or panicked on a
malformed hexadecimal attribute. -/
inductive PState where
  | running (regions : List FlashRegion) (cur : Option FlashRegion)
  | finished (regions : List FlashRegion)
  | failed
  | panicked
deriving DecidableEq, Repr

/-- One iteration of the `parse_flash_regions_from_xml` event loop
(`gdb_client.rs` lines 338-394). -/
def parseStep (st : PState) (e : XEvent) : PState :=
  match st with
  | .running regions cur =>
    match e with
    | .startTag name attrs =>
      if name = "memory" then
        match scanMemoryAttrs attrs 0 0 false with
        | none => .panicked
        | some (s, l, isFlash) =>
          if isFlash then
            .running regions (some ⟨s, l, none⟩)
          else
            .running regions cur
      else
        .running regions cur
    | .text txt =>
      match cur with
      | some r =>
        match parseHexU64 txt with
        | some bs => .running regions (some { r with blocksize := some bs })
        | none => .running regions cur
      | none => .running regions cur
    | .endTag name =>
      if name = "memory" then
        match cur with
        | some r => .running (regions ++ [r]) none
        | none => .running regions none
      else
        .running regions cur
    | .eof => .finished regions
    | .err => .failed
    | .emptyTag _ _ => .running regions cur
  | st => st

/-- Outcome of `parse_flash_regions_from_xml`: `ok` with the full region
list, `ioError` for a reader error (`Err(e) => return Err(...)`), or a
panic from an `.unwrap()` on a malformed hexadecimal attribute. -/
inductive ParseOutcome where
  | ok (regions : List FlashRegion)
  | ioError
  | panicked
deriving DecidableEq, Repr

/-- `parse_flash_regions_from_xml` (`gdb_client.rs` lines 329-397) over
the event stream: fold the loop body over the events.  A stream that ends
without an explicit `Eof` event behaves like one ending in `Eof`, since
`quick_xml` reports `Eof` at end of input. -/
def parseFlashRegionsFromXml (evts : List XEvent) : ParseOutcome :=
  match evts.foldl parseStep (.running [] none) with
  | .running regions _ => .ok regions
  | .finished regions => .ok regions
  | .failed => .ioError
  | .panicked => .panicked

/-- Right-pad a block to the next multiple of `FLASH_WORD = 4` with `0xFF`
bytes (`gdb_client.rs` lines 205-208). -/
def padFlashWord (b : List Nat) : List Nat :=
  b ++ List.replicate ((4 - b.length % 4) % 4) 255

/-- The sequence of `(address, padded block)` pairs produced by the
`flash_write` loop (`gdb_client.rs` lines 199-228) when every response is
`OK`: take at most `chunk` bytes, pad to a multiple of 4, send at the
current address, then advance both the address offset and the data cursor
by the *padded* block length (`offset += block.len()`, line 224).  `a` is
the exact `addr + offset` as an unbounded natural; the emitted address is
its `u32` truncation.  For `chunk = 0` the source loops forever sending
empty blocks; the model returns `[]` there (the claims assume
`chunk > 0`). -/
def flashWriteChunksAux (a : Nat) (d : List Nat) (chunk : Nat) :
    List (Nat × List Nat) :=
  match d, chunk with
  | [], _ => []
  | _ :: _, 0 => []
  | x :: rest, c + 1 =>
    let block := padFlashWord ((x :: rest).take (c + 1))
    (a % 2 ^ 32, block) ::
      flashWriteChunksAux (a + block.length) ((x :: rest).drop block.length) (c + 1)
termination_by d.length
decreasing_by
  simp only [List.length_drop, List.length_cons]
  have hb : 1 ≤ (padFlashWord ((x :: rest).take (c + 1))).length := by
    unfold padFlashWord
    simp only [List.length_append, List.length_replicate, List.length_take,
      List.length_cons]
    omega
  omega

/-- `flash_write` chunk trace starting from address `addr`. -/
def flashWriteChunks (addr : Nat) (d : List Nat) (chunk : Nat) :
    List (Nat × List Nat) :=
  flashWriteChunksAux addr d chunk

/-- `align_up` (`agdi_impl.rs` lines 126-130): `(value + align - 1) &
!(align - 1)` in wrapping `u32` arithmetic (the `debug_assert!` that
`align` is a power of two is compiled out in release builds).  Both
subtractions are written with `+ (2^32 - 1)` so the `u32` wrap-around of
`value + align - 1` and of `align - 1` for `align = 0` is exact. -/
def alignUp (value align : Nat) : Nat :=
  ((value + align + (2 ^ 32 - 1)) % 2 ^ 32) &&&
    ((2 ^ 32 - 1) ^^^ ((align + (2 ^ 32 - 1)) % 2 ^ 32))

/-- Rounding up to the next multiple of `align` — the arithmetic meaning
of the spec phrase "rounded up to the block-size boundary". -/
def roundUpTo (value align : Nat) : Nat :=
  align * ((value + align - 1) / align)

/-- One flash parameter block as fetched from the host callback
(`FlashParm`, `agdi_impl.rs` lines 97-109): the segment's start address,
its data bytes (`image`/`many`), and the declared total expected size
(`act_size`).  `many` is the length of `data`. -/
structure FlashSeg where
  start : Nat
  data : List Nat
  actSize : Nat
deriving DecidableEq, Repr

/-- Externally observable actions of the flash-download sequence, in
order: progress reports, the GDB commands issued, and the final
disconnect performed by `start_flash_load`. -/
inductive OrcAction where
  | progressInit
  | erase (addr len : Nat)
  | write (addr : Nat) (data : List Nat) (chunk : Nat)
  | setpos (pos : Nat)
  | flashDone
  | progressKill
  | disconnect
deriving DecidableEq, Repr

/-- Result of the flash-download sequence: `AG_OK`, `AG_NOACCESS`, or a
panic (the `u32` division `wrote * 100 / act_size` with `act_size = 0`
panics in Rust). -/
inductive OrcResult where
  | agOk
  | agNoAccess
  | panicked
deriving DecidableEq, Repr

/-- Successive `get_flash_param` results; past the end of the supplied
list the host is modelled as answering with a zero-length segment, the
protocol's end-of-data marker. -/
def fetchSeg (segs : List FlashSeg) (i : Nat) : FlashSeg :=
  segs.getD i ⟨0, [], 0⟩

/-- The write loop of `do_flash_load_internal` (`agdi_impl.rs` lines
229-244) starting at segment index `i` with `wrote` bytes written so far
(`u32`, wrapping): while the current segment's `many` is nonzero, write
its data (chunk size 256), abort with `AG_NOACCESS` on a write failure,
accumulate `wrote`, emit a `SetPos` progress report with position
`wrote * 100 / act_size` (a division that panics when `act_size = 0`),
and fetch the next segment.  Returns the emitted actions and `none` when
the loop exits normally via a zero-length segment, or `some r` for an
early return. -/
def writeLoop (segs : List FlashSeg) (writeOk : Nat → Bool) (i wrote : Nat) :
    List OrcAction × Option OrcResult :=
  let pf := fetchSeg segs i
  if h : pf.data.length = 0 then
    ([], none)
  else
    let act : OrcAction := .write pf.start pf.data 256
    if ¬ writeOk i then
      ([act], some .agNoAccess)
    else
      let wrote2 := (wrote + pf.data.length) % 2 ^ 32
      if pf.actSize = 0 then
        ([act], some .panicked)
      else
        let pos := wrote2 * 100 % 2 ^ 32 / pf.actSize
        let (tr, r) := writeLoop segs writeOk (i + 1) wrote2
        (act :: .setpos pos :: tr, r)
termination_by segs.length - i
decreasing_by
  have hi : i < segs.length := by
    by_contra hge
    have hd : fetchSeg segs i = ⟨0, [], 0⟩ := by
      rw [fetchSeg]
      exact List.getD_eq_default _ _ (Nat.le_of_not_lt hge)
    exact h (by show (fetchSeg segs i).data.length = 0; rw [hd]; rfl)
  omega

/-- `do_flash_load_internal` (`agdi_impl.rs` lines 200-252) as a trace
producer.  Inputs: the result of `get_flash_info` (`none` models an error
return), the successive flash parameter segments supplied by the host
callback, and oracles for the outcomes of the erase, write and done
commands.  Emits the `Init` progress report, fails with `AG_NOACCESS` on
a region-discovery error or an empty region list, takes the first
region's block size defaulting to 1024 (truncated to `u32` at the
`block_size as u32` cast), erases once (aligned via `align_up`) when the
first segment is nonempty, runs the write loop, sends `vFlashDone`, and
emits the `Kill` progress report just before returning `AG_OK`. -/
def doFlashLoadInternal (info : Option (List FlashRegion))
    (segs : List FlashSeg) (eraseOk : Bool) (writeOk : Nat → Bool)
    (doneOk : Bool) : List OrcAction × OrcResult :=
  match info with
  | none => ([.progressInit], .agNoAccess)
  | some flashInfs =>
    match flashInfs with
    | [] => ([.progressInit], .agNoAccess)
    | flashInf :: _ =>
      let blockSize := flashInf.blocksize.getD 1024
      let pf := fetchSeg segs 0
      let eraseTr : List OrcAction :=
        if pf.data.length ≠ 0 then
          [.erase pf.start (alignUp pf.actSize (blockSize % 2 ^ 32))]
        else []
      if pf.data.length ≠ 0 ∧ ¬ eraseOk then
        (.progressInit :: eraseTr, .agNoAccess)
      else
        match writeLoop segs writeOk 0 0 with
        | (tr, some r) => (.progressInit :: eraseTr ++ tr, r)
        | (tr, none) =>
          if ¬ doneOk then
            (.progressInit :: eraseTr ++ tr ++ [.flashDone], .agNoAccess)
          else
            (.progressInit :: eraseTr ++ tr ++ [.flashDone, .progressKill],
              .agOk)

/-- `start_flash_load` (`agdi_impl.rs` lines 254-258): run the internal
sequence, then disconnect unconditionally (its `io::Result` is ignored),
and return the internal result.  A panic propagates without reaching the
disconnect call. -/
def startFlashLoad (info : Option (List FlashRegion)) (segs : List FlashSeg)
    (eraseOk : Bool) (writeOk : Nat → Bool) (doneOk : Bool) :
    List OrcAction × OrcResult :=
  match doFlashLoadInternal info segs eraseOk writeOk doneOk with
  | (tr, .panicked) => (tr, .panicked)
  | (tr, r) => (tr ++ [.disconnect], r)

/-! ## Helper lemmas -/

lemma xor32_xor32 (b : Nat) : (b ^^^ 32) ^^^ 32 = b := by
  rw [Nat.xor_assoc, Nat.xor_self, Nat.xor_zero]

lemma not_special_ne_rbrace {b : Nat} (h : ¬ isSpecialByte b) : b ≠ byteRBrace := by
  intro hb
  exact h (by simp [isSpecialByte, hb])

lemma unescape_escape (d : List Nat) : unescapeSpec (escapeBinary d) = d := by
  induction d with
  | nil => rfl
  | cons b rest ih =>
    by_cases hs : isSpecialByte b
    · simp only [escapeBinary, hs, if_pos, unescapeSpec, if_pos rfl]
      rw [xor32_xor32, ih]
    · have hb : b ≠ byteRBrace := not_special_ne_rbrace hs
      rw [escapeBinary, if_neg (by simpa using hs)]
      cases he : escapeBinary rest with
      | nil =>
        have : rest = [] := by
          cases rest with
          | nil => rfl
          | cons y ys =>
            rw [escapeBinary] at he
            split at he <;> simp at he
        subst this
        simp [unescapeSpec]
      | cons y ys =>
        rw [unescapeSpec.eq_3, if_neg hb, ← he, ih]

lemma escape_length (d : List Nat) :
    (escapeBinary d).length = d.length + d.countP (fun b => isSpecialByte b) := by
  induction d with
  | nil => rfl
  | cons b rest ih =>
    by_cases hs : isSpecialByte b
    · simp [escapeBinary, hs, ih, List.countP_cons]
      omega
    · simp [escapeBinary, hs, ih, List.countP_cons]
      omega

/-! ## C3: escape/unescape round trip -/

/-- C3 counterexample: the spec-defined unescape is not a two-sided
inverse of `escape_binary` on arbitrary byte sequences.  The sequence
`[0x23]` (a bare `#`, which no escape output ever contains) is a fixed
point of unescape, but escaping it yields `[0x7d, 0x03]`, so
`escape_binary (unescape [0x23]) ≠ [0x23]`. -/
theorem c3_two_sided_counterexample :
    unescapeSpec [35] = [35] ∧ escapeBinary [35] = [125, 3] ∧
    escapeBinary (unescapeSpec [35]) ≠ [35] := by decide

/-- C3 (amended): unescaping after escaping reproduces every byte
sequence exactly (unescape is a left inverse of `escape_binary`), and the
escaped length is the original length plus one extra byte per special
byte, so bytes outside the special set contribute exactly their own
length. -/
theorem c3_roundtrip_and_length (d : List Nat) :
    unescapeSpec (escapeBinary d) = d ∧
    (escapeBinary d).length = d.length + d.countP (fun b => isSpecialByte b) :=
  ⟨unescape_escape d, escape_length d⟩

/-! ## C4: checksum and outbound frame -/

/-- The outbound frame `send_cmd` builds for a given prefix and binary
payload (`gdb_client.rs` lines 158-162). -/
def rspFrame (pre binary : List Nat) : List Nat :=
  byteDollar :: ((pre ++ binary) ++ byteHash :: hexLowerTwo (checksum (pre ++ binary)))

lemma foldl_mod256_lt (l : List Nat) : ∀ s, s < 256 →
    l.foldl (fun s b => (s + b) % 256) s < 256 := by
  induction l with
  | nil => intro s hs; exact hs
  | cons b rest ih =>
    intro s _
    exact ih _ (Nat.mod_lt _ (by norm_num))

lemma checksum_lt (l : List Nat) : checksum l < 256 :=
  foldl_mod256_lt l 0 (by norm_num)

lemma hexDigitByte_range {d : Nat} (hd : d < 16) :
    (48 ≤ hexDigitByte d ∧ hexDigitByte d ≤ 57) ∨
    (97 ≤ hexDigitByte d ∧ hexDigitByte d ≤ 102) := by
  unfold hexDigitByte
  split <;> omega

lemma readPacket_sent (c : GdbClientM) :
    c.readPacket.2.transport.sentPackets = c.transport.sentPackets ∨
    c.readPacket.2.transport.sentPackets = c.transport.sentPackets ++ [[43]] := by
  simp only [GdbClientM.readPacket]
  split
  · simp
  · split
    · simp
    · split
      · simp
      · split
        · simp
        · simp

lemma readPacket_sent_exists (c : GdbClientM) :
    ∃ extra, c.readPacket.2.transport.sentPackets
      = c.transport.sentPackets ++ extra := by
  rcases readPacket_sent c with h | h
  · exact ⟨[], by simp [h]⟩
  · exact ⟨[[43]], h⟩

lemma sendCmd_sent (c : GdbClientM) (pre binary : List Nat)
    (hc : c.transport.connected = true) :
    ∃ tail, (c.sendCmd pre binary).2.transport.sentPackets
      = c.transport.sentPackets ++ rspFrame pre binary :: tail := by
  have key : ∀ X : GdbClientM,
      X.transport.sentPackets
        = c.transport.sentPackets ++ [rspFrame pre binary] →
      ∃ tail, X.readPacket.2.transport.sentPackets
        = c.transport.sentPackets ++ rspFrame pre binary :: tail := by
    intro X hX
    obtain ⟨extra, hextra⟩ := readPacket_sent_exists X
    exact ⟨extra, by rw [hextra, hX]; simp⟩
  simp only [GdbClientM.sendCmd, MockTransport.sendBytes, MockTransport.recvExact,
    hc, if_true, not_true_eq_false, if_false]
  by_cases hlen : c.transport.recvBuffer.length < c.transport.recvPos + 1
  · simp only [if_pos hlen]
    simp [rspFrame]
  · simp only [if_neg hlen]
    split
    · exact key _ (by simp [rspFrame])
    · split
      · exact ⟨[], by simp [rspFrame]⟩
      · exact ⟨[], by simp [rspFrame]⟩

/-- C4: the checksum of `b"OK"` is `0x9A = 154`; when the transport is
connected, `send_cmd` transmits exactly one frame, equal to
`$<prefix><payload>#` followed by the two lowercase hexadecimal digits of
`checksum(prefix ++ payload)` — i.e. the frame's trailing two characters
are that checksum rendering (nothing later in the round-trip alters it;
at most a `+` acknowledgement is sent afterwards). -/
theorem c4_checksum_frame (c : GdbClientM) (pre binary : List Nat)
    (hc : c.transport.connected = true) :
    checksum [79, 75] = 154 ∧
    rspFrame pre binary
      = (byteDollar :: ((pre ++ binary) ++ [byteHash]))
          ++ hexLowerTwo (checksum (pre ++ binary)) ∧
    (hexLowerTwo (checksum (pre ++ binary))).length = 2 ∧
    (∀ b ∈ hexLowerTwo (checksum (pre ++ binary)),
      (48 ≤ b ∧ b ≤ 57) ∨ (97 ≤ b ∧ b ≤ 102)) ∧
    ∃ tail, (c.sendCmd pre binary).2.transport.sentPackets
      = c.transport.sentPackets ++ rspFrame pre binary :: tail := by
  refine ⟨by decide, by simp [rspFrame], rfl, ?_, sendCmd_sent c pre binary hc⟩
  intro b hb
  have hcs : checksum (pre ++ binary) < 256 := checksum_lt _
  simp only [hexLowerTwo, List.mem_cons, List.not_mem_nil, or_false] at hb
  rcases hb with rfl | rfl
  · exact hexDigitByte_range (by omega)
  · exact hexDigitByte_range (Nat.mod_lt _ (by norm_num))

/-- C4 witness: instantiation at a connected client with prefix `OK` and
empty binary payload. -/
theorem c4_checksum_frame_witness :
    checksum [79, 75] = 154 ∧
    rspFrame [79, 75] []
      = (byteDollar :: (([79, 75] ++ []) ++ [byteHash]))
          ++ hexLowerTwo (checksum ([79, 75] ++ [])) ∧
    (hexLowerTwo (checksum ([79, 75] ++ []))).length = 2 ∧
    (∀ b ∈ hexLowerTwo (checksum ([79, 75] ++ [])),
      (48 ≤ b ∧ b ≤ 57) ∨ (97 ≤ b ∧ b ≤ 102)) ∧
    ∃ tail,
      ((⟨⟨[], [], 0, true⟩, true⟩ : GdbClientM).sendCmd [79, 75] []).2.transport.sentPackets
        = (⟨⟨[], [], 0, true⟩, true⟩ : GdbClientM).transport.sentPackets
            ++ rspFrame [79, 75] [] :: tail :=
  c4_checksum_frame ⟨⟨[], [], 0, true⟩, true⟩ [79, 75] [] rfl

/-! ## C2: the connected flag and RSP-level operations -/

/-- C2 counterexample: `send_cmd` does not assert the client's
`connected` flag.  A client freshly wrapped around an already-connected
scripted transport (exactly the situation of the source's own
`test_send_cmd_ok`) has `connected = false`, yet `send_cmd` succeeds and
returns the `OK` payload instead of failing with a connection-state
error; the flag also disagrees with the transport's real state. -/
theorem c2_counterexample :
    (GdbClientM.new ⟨[], 43 :: rspPacket [79, 75], 0, true⟩).connected = false ∧
    (GdbClientM.new ⟨[], 43 :: rspPacket [79, 75], 0, true⟩).transport.connected = true ∧
    ((GdbClientM.new ⟨[], 43 :: rspPacket [79, 75], 0, true⟩).sendCmd
        [113, 83, 117, 112, 112, 111, 114, 116, 101, 100] []).1
      = .ok [79, 75] := by
  refine ⟨rfl, rfl, ?_⟩
  rfl

/-- C2 (amended): `send_cmd` performs no `connected`-flag check; a
connection-state failure surfaces from the transport itself.  When the
underlying transport is disconnected, `send_cmd` fails with the
transport's `NotConnected` error before anything is transmitted and
leaves the client state unchanged. -/
theorem c2_send_cmd_not_connected (c : GdbClientM) (pre binary : List Nat)
    (h : c.transport.connected = false) :
    (c.sendCmd pre binary).1 = .error .notConnected ∧
    (c.sendCmd pre binary).2 = c := by
  simp [GdbClientM.sendCmd, MockTransport.sendBytes, h]

/-- C2 witness: the amended theorem at a concrete disconnected client. -/
theorem c2_send_cmd_not_connected_witness :
    ((GdbClientM.new ⟨[], [], 0, false⟩).sendCmd [118] []).1
      = .error .notConnected ∧
    ((GdbClientM.new ⟨[], [], 0, false⟩).sendCmd [118] []).2
      = GdbClientM.new ⟨[], [], 0, false⟩ :=
  c2_send_cmd_not_connected (GdbClientM.new ⟨[], [], 0, false⟩) [118] [] rfl

/-! ## C5: inbound packet reading -/

lemma takeWhile_append_stop {p : Nat → Bool} (l : List Nat) (a : Nat)
    (r : List Nat) (hl : ∀ b ∈ l, p b = true) (ha : p a = false) :
    (l ++ a :: r).takeWhile p = l ∧ (l ++ a :: r).drop (l.length + 1) = r := by
  induction l with
  | nil => simp [List.takeWhile_cons, ha]
  | cons x xs ih =>
    have hx : p x = true := hl x (by simp)
    obtain ⟨h1, h2⟩ := ih (fun b hb => hl b (by simp [hb]))
    constructor
    · simp [List.takeWhile_cons, hx, h1]
    · simpa [List.drop_succ_cons] using h2

/-- C5: when the bytes remaining on the wire are arbitrary junk free of
`$`, then `$`, then a payload free of `#`, then `#`, then two arbitrary
checksum bytes, `read_packet` returns exactly the payload, consumes
through the two checksum bytes and no further, never compares them to a
computed checksum (they are universally quantified), and sends back the
single acknowledgement byte `+`. -/
theorem c5_read_packet (c : GdbClientM) (junk payload : List Nat)
    (d1 d2 : Nat) (rest : List Nat)
    (hc : c.transport.connected = true)
    (hj : ∀ b ∈ junk, b ≠ byteDollar)
    (hp : ∀ b ∈ payload, b ≠ byteHash)
    (hbuf : c.transport.recvBuffer.drop c.transport.recvPos
      = junk ++ byteDollar :: (payload ++ byteHash :: d1 :: d2 :: rest)) :
    c.readPacket
      = (.ok payload,
          ⟨{ c.transport with
              recvPos := c.transport.recvPos + junk.length + payload.length + 4,
              sentPackets := c.transport.sentPackets ++ [[43]] },
            c.connected⟩) := by
  have key := takeWhile_append_stop (p := fun b => decide (b ≠ byteDollar))
    junk byteDollar (payload ++ byteHash :: d1 :: d2 :: rest)
    (fun b hb => by simpa using hj b hb) (by simp)
  have key2 := takeWhile_append_stop (p := fun b => decide (b ≠ byteHash))
    payload byteHash (d1 :: d2 :: rest)
    (fun b hb => by simpa using hp b hb) (by simp)
  simp only [GdbClientM.readPacket, hc, not_true_eq_false, if_false,
    hbuf, key.1, key.2, key2.1, key2.2]
  rw [if_neg (by simp)]
  rw [if_neg (by simp)]
  rw [if_neg (by simp)]

/-- C5 witness: one junk byte, payload `OK`, checksum bytes `9, 8`, one
extra byte left on the wire. -/
theorem c5_read_packet_witness :
    (⟨⟨[], [1, 36, 79, 75, 35, 9, 8, 7], 0, true⟩, true⟩ : GdbClientM).readPacket
      = (.ok [79, 75], ⟨⟨[[43]], [1, 36, 79, 75, 35, 9, 8, 7], 7, true⟩, true⟩) :=
  c5_read_packet ⟨⟨[], [1, 36, 79, 75, 35, 9, 8, 7], 0, true⟩, true⟩
    [1] [79, 75] 9 8 [7] rfl (by decide) (by decide) rfl

/-! ## C1: flash_write chunking -/

lemma padFlashWord_length (b : List Nat) :
    (padFlashWord b).length = b.length + (4 - b.length % 4) % 4 := by
  simp [padFlashWord]

lemma flashWriteChunksAux_join (chunk : Nat) (hcpos : 0 < chunk)
    (h4 : chunk % 4 = 0) :
    ∀ n d a, d.length ≤ n →
      ((flashWriteChunksAux a d chunk).map Prod.snd).flatten
        = d ++ List.replicate ((4 - d.length % 4) % 4) 255 := by
  intro n
  induction n with
  | zero =>
    intro d a hd
    have hnil : d = [] := List.length_eq_zero.mp (Nat.le_zero.mp hd)
    subst hnil
    simp [flashWriteChunksAux]
  | succ n ih =>
    intro d a hd
    cases d with
    | nil => simp [flashWriteChunksAux]
    | cons x rest =>
      cases chunk with
      | zero => exact absurd hcpos (lt_irrefl 0)
      | succ c =>
        rw [flashWriteChunksAux]
        by_cases hlen : rest.length + 1 ≤ c + 1
        · have htake : (x :: rest).take (c + 1) = x :: rest :=
            List.take_of_length_le (by simp only [List.length_cons]; omega)
          rw [htake]
          have hdrop : (x :: rest).drop (padFlashWord (x :: rest)).length = [] := by
            apply List.drop_eq_nil_of_le
            rw [padFlashWord_length]
            exact Nat.le_add_right _ _
          rw [hdrop]
          simp [flashWriteChunksAux, padFlashWord]
        · have h1 : ((x :: rest).take (c + 1)).length = c + 1 := by
            simp only [List.length_take, List.length_cons]
            omega
          have hpad0 : padFlashWord ((x :: rest).take (c + 1)) = (x :: rest).take (c + 1) := by
            unfold padFlashWord
            rw [h1]
            have hz : (4 - (c + 1) % 4) % 4 = 0 := by omega
            simp [hz]
          have hrec := ih ((x :: rest).drop (c + 1)) (a + (c + 1)) (by
            simp only [List.length_drop, List.length_cons]
            simp only [List.length_cons] at hd
            omega)
          simp only [hpad0, h1, List.map_cons]
          rw [List.flatten_cons, hrec, ← List.append_assoc, List.take_append_drop]
          have hmod : ((x :: rest).drop (c + 1)).length % 4 = (x :: rest).length % 4 := by
            simp only [List.length_drop, List.length_cons]
            omega
          rw [hmod]

lemma flashWriteChunksAux_blocks (chunk : Nat) (hcpos : 0 < chunk)
    (h4 : chunk % 4 = 0) :
    ∀ n d a, d.length ≤ n → ∀ p ∈ flashWriteChunksAux a d chunk,
      p.2.length % 4 = 0 ∧ 0 < p.2.length ∧ p.2.length ≤ chunk := by
  intro n
  induction n with
  | zero =>
    intro d a hd p hp
    have hnil : d = [] := List.length_eq_zero.mp (Nat.le_zero.mp hd)
    subst hnil
    simp [flashWriteChunksAux] at hp
  | succ n ih =>
    intro d a hd p hp
    cases d with
    | nil => simp [flashWriteChunksAux] at hp
    | cons x rest =>
      cases chunk with
      | zero => exact absurd hcpos (lt_irrefl 0)
      | succ c =>
        rw [flashWriteChunksAux] at hp
        rcases List.mem_cons.mp hp with rfl | htail
        · refine ⟨?_, ?_, ?_⟩ <;>
          · rw [padFlashWord_length]
            simp only [List.length_take, List.length_cons]
            omega
        · refine ih _ _ ?_ p htail
          have hb : 0 < (padFlashWord ((x :: rest).take (c + 1))).length := by
            rw [padFlashWord_length]
            simp only [List.length_take, List.length_cons]
            omega
          simp only [List.length_drop, List.length_cons]
          simp only [List.length_cons] at hd
          omega

lemma flashWriteChunksAux_addr (chunk : Nat) :
    ∀ n d a, d.length ≤ n → ∀ i p, (flashWriteChunksAux a d chunk)[i]? = some p →
      p.1 = (a + (((flashWriteChunksAux a d chunk).take i).map
        (fun q => q.2.length)).sum) % 2 ^ 32 := by
  intro n
  induction n with
  | zero =>
    intro d a hd i p hp
    have hnil : d = [] := List.length_eq_zero.mp (Nat.le_zero.mp hd)
    subst hnil
    simp [flashWriteChunksAux] at hp
  | succ n ih =>
    intro d a hd i p hp
    cases d with
    | nil => simp [flashWriteChunksAux] at hp
    | cons x rest =>
      cases chunk with
      | zero => simp [flashWriteChunksAux] at hp
      | succ c =>
        rw [flashWriteChunksAux] at hp ⊢
        cases i with
        | zero =>
          simp only [List.getElem?_cons_zero, Option.some.injEq] at hp
          subst hp
          simp
        | succ i =>
          simp only [List.getElem?_cons_succ] at hp
          have hb : 0 < (padFlashWord ((x :: rest).take (c + 1))).length := by
            rw [padFlashWord_length]
            simp only [List.length_take, List.length_cons]
            omega
          have hrec := ih ((x :: rest).drop (padFlashWord ((x :: rest).take (c + 1))).length)
            (a + (padFlashWord ((x :: rest).take (c + 1))).length)
            (by
              simp only [List.length_drop, List.length_cons]
              simp only [List.length_cons] at hd
              omega) i p hp
          simp only [List.take_succ_cons] at hrec
          simp only [List.take_succ_cons, List.map_cons, List.sum_cons]
          rw [hrec, Nat.add_assoc]

/-- C1 counterexample: with `chunk_size = 3` (positive but not a multiple
of 4), `flash_write` advances the data cursor by the padded length and
skips a data byte: on the six bytes `[10 .. 15]` the byte `13` at index 3
appears in no transmitted block, refuting "every byte of data is
transmitted exactly once and in order" for arbitrary `chunk_size > 0`. -/
theorem c1_flash_write_counterexample :
    flashWriteChunks 0 [10, 11, 12, 13, 14, 15] 3
      = [(0, [10, 11, 12, 255]), (4, [14, 15, 255, 255])] ∧
    (13 : Nat) ∈ [10, 11, 12, 13, 14, 15] ∧
    (13 : Nat) ∉ ((flashWriteChunks 0 [10, 11, 12, 13, 14, 15] 3).map
      Prod.snd).flatten := by
  have h1 : flashWriteChunks 0 [10, 11, 12, 13, 14, 15] 3
      = [(0, [10, 11, 12, 255]), (4, [14, 15, 255, 255])] := by
    simp [flashWriteChunks, flashWriteChunksAux, padFlashWord]
  refine ⟨h1, by decide, ?_⟩
  rw [h1]
  decide

/-- C1 (amended): for chunk sizes that are positive multiples of 4 (such
as the 256 used by the orchestrator), `flash_write` splits `data` into
consecutive blocks of at most `chunk_size` bytes, each a nonempty
multiple of 4 in length after right-padding with `0xFF`; the blocks
concatenate to `data` followed only by the final block's `0xFF` padding
(so every byte of `data` is transmitted exactly once and in order until
all of `data` is consumed); and each block's address is the start address
advanced by the padded lengths of all earlier blocks (as a `u32`). -/
theorem c1_flash_write_chunks (addr : Nat) (data : List Nat) (chunk : Nat)
    (hpos : 0 < chunk) (h4 : chunk % 4 = 0) :
    (((flashWriteChunks addr data chunk).map Prod.snd).flatten
      = data ++ List.replicate ((4 - data.length % 4) % 4) 255) ∧
    (∀ p ∈ flashWriteChunks addr data chunk,
      p.2.length % 4 = 0 ∧ 0 < p.2.length ∧ p.2.length ≤ chunk) ∧
    (∀ i p, (flashWriteChunks addr data chunk)[i]? = some p →
      p.1 = (addr + (((flashWriteChunks addr data chunk).take i).map
        (fun q => q.2.length)).sum) % 2 ^ 32) :=
  ⟨flashWriteChunksAux_join chunk hpos h4 data.length data addr le_rfl,
   flashWriteChunksAux_blocks chunk hpos h4 data.length data addr le_rfl,
   fun i p hp =>
     flashWriteChunksAux_addr chunk data.length data addr le_rfl i p hp⟩

/-- C1 witness: the amended theorem at address 0, data `[1,2,3,4,5]` and
chunk size 4. -/
theorem c1_flash_write_chunks_witness :
    (((flashWriteChunks 0 [1, 2, 3, 4, 5] 4).map Prod.snd).flatten
      = [1, 2, 3, 4, 5]
          ++ List.replicate ((4 - [1, 2, 3, 4, 5].length % 4) % 4) 255) ∧
    (∀ p ∈ flashWriteChunks 0 [1, 2, 3, 4, 5] 4,
      p.2.length % 4 = 0 ∧ 0 < p.2.length ∧ p.2.length ≤ 4) ∧
    (∀ i p, (flashWriteChunks 0 [1, 2, 3, 4, 5] 4)[i]? = some p →
      p.1 = (0 + (((flashWriteChunks 0 [1, 2, 3, 4, 5] 4).take i).map
        (fun q => q.2.length)).sum) % 2 ^ 32) :=
  c1_flash_write_chunks 0 [1, 2, 3, 4, 5] 4 (by decide) (by decide)

/-! ## C6, C7, C10: memory-map parsing -/

lemma foldl_parseStep_failed (l : List XEvent) :
    l.foldl parseStep .failed = .failed := by
  induction l with
  | nil => rfl
  | cons e rest ih => simpa [parseStep] using ih

lemma foldl_parseStep_panicked (l : List XEvent) :
    l.foldl parseStep .panicked = .panicked := by
  induction l with
  | nil => rfl
  | cons e rest ih => simpa [parseStep] using ih

/-- C6 counterexample: a `memory` element whose `start` attribute is the
malformed hexadecimal string `xyz` makes the parse panic (the source's
`.unwrap()` on `parse_hex_u64`), which is not a returned error value. -/
theorem c6_malformed_hex_counterexample :
    parseFlashRegionsFromXml
      [.startTag "memory" [("type", "flash"), ("start", "xyz"), ("length", "0x8000")],
       .eof]
      = .panicked ∧ ParseOutcome.panicked ≠ .ioError := by
  constructor
  · rfl
  · intro h
    exact ParseOutcome.noConfusion h

/-- C6 (amended): a malformed document (a reader error) fails the whole
parse with an error value, and a `memory` element whose `start` or
`length` attribute is rejected by `parse_hex_u64` aborts the whole parse
by panicking; in neither case is any partial or best-effort region list
returned. -/
theorem c6_parse_failure_modes (pre post : List XEvent)
    (regions : List FlashRegion) (cur : Option FlashRegion)
    (h : pre.foldl parseStep (.running [] none) = .running regions cur) :
    parseFlashRegionsFromXml (pre ++ XEvent.err :: post) = .ioError ∧
    ∀ attrs, scanMemoryAttrs attrs 0 0 false = none →
      parseFlashRegionsFromXml (pre ++ XEvent.startTag "memory" attrs :: post)
        = .panicked := by
  constructor
  · unfold parseFlashRegionsFromXml
    rw [List.foldl_append, h, List.foldl_cons]
    have hstep : parseStep (.running regions cur) .err = .failed := rfl
    rw [hstep, foldl_parseStep_failed]
  · intro attrs hattrs
    unfold parseFlashRegionsFromXml
    rw [List.foldl_append, h, List.foldl_cons]
    have hstep : parseStep (.running regions cur) (.startTag "memory" attrs)
        = .panicked := by
      simp [parseStep, hattrs]
    rw [hstep, foldl_parseStep_panicked]

/-- C6 witness: the amended theorem at the empty prefix, with a reader
error document and a `memory` element whose `start` attribute is `zz`. -/
theorem c6_parse_failure_modes_witness :
    parseFlashRegionsFromXml ([] ++ XEvent.err :: []) = .ioError ∧
    ∀ attrs, scanMemoryAttrs attrs 0 0 false = none →
      parseFlashRegionsFromXml ([] ++ XEvent.startTag "memory" attrs :: [])
        = .panicked :=
  c6_parse_failure_modes [] [] [] none rfl

/-- Event stream of the source's own test document
(`gdb_client.rs` lines 552-560) under `trim_text(true)`: one `ram`
region, one `flash` region at `0x08000000` of length `0x8000` with a
`blocksize` property of `0x400`, and a second `ram` region; the
self-closing `ram` elements arrive as empty-element events. -/
def concreteMapEvents : List XEvent :=
  [.startTag "memory-map" [],
   .emptyTag "memory" [("type", "ram"), ("start", "0x00000000"), ("length", "0x08000000")],
   .startTag "memory" [("type", "flash"), ("start", "0x08000000"), ("length", "0x8000")],
   .startTag "property" [("name", "blocksize")],
   .text "0x400",
   .endTag "property",
   .endTag "memory",
   .emptyTag "memory" [("type", "ram"), ("start", "0x08008000"), ("length", "0xf7ff8000")],
   .endTag "memory-map",
   .eof]

/-- Whether an event is a `memory` start tag whose scanned attributes
leave `is_flash` set. -/
def isFlashStartEvent : XEvent → Bool
  | .startTag name attrs =>
    name = "memory" &&
      (match scanMemoryAttrs attrs 0 0 false with
       | some (_, _, true) => true
       | _ => false)
  | _ => false

lemma noFlashStart_foldl (evts : List XEvent)
    (h : ∀ e ∈ evts, isFlashStartEvent e = false) :
    ∀ st, (st = .running [] none ∨ st = .finished [] ∨ st = .failed ∨
        st = .panicked) →
      (evts.foldl parseStep st = .running [] none ∨
        evts.foldl parseStep st = .finished [] ∨
        evts.foldl parseStep st = .failed ∨
        evts.foldl parseStep st = .panicked) := by
  induction evts with
  | nil => intro st hst; simpa using hst
  | cons e rest ih =>
    intro st hst
    have he : isFlashStartEvent e = false := h e (by simp)
    have hr : ∀ x ∈ rest, isFlashStartEvent x = false :=
      fun x hx => h x (by simp [hx])
    rw [List.foldl_cons]
    apply ih hr
    rcases hst with rfl | rfl | rfl | rfl
    · cases e with
      | startTag name attrs =>
        by_cases hn : name = "memory"
        · subst hn
          simp only [isFlashStartEvent, Bool.and_eq_false_iff] at he
          rcases he with he | he
          · simp at he
          · cases hscan : scanMemoryAttrs attrs 0 0 false with
            | none => simp [parseStep, hscan]
            | some v =>
              obtain ⟨s, l, f⟩ := v
              cases f with
              | true => rw [hscan] at he; simp at he
              | false => simp [parseStep, hscan]
        · simp [parseStep, hn]
      | endTag name =>
        by_cases hn : name = "memory"
        · subst hn; simp [parseStep]
        · simp [parseStep, hn]
      | text s => simp [parseStep]
      | emptyTag name attrs => simp [parseStep]
      | eof => simp [parseStep]
      | err => simp [parseStep]
    · cases e <;> simp [parseStep]
    · cases e <;> simp [parseStep]
    · cases e <;> simp [parseStep]

/-- C7: on the source's test document the parser returns exactly one
region, `FlashRegion{start: 0x08000000, length: 0x8000, block_size:
Some(0x400)}` (regions are appended on closing a tracked `memory`
element, in document order); and a stream with no flash `memory` start
tag never produces a region: whenever the parse succeeds it returns the
empty list. -/
theorem c7_flash_regions :
    parseFlashRegionsFromXml concreteMapEvents
      = .ok [⟨0x08000000, 0x8000, some 0x400⟩] ∧
    ∀ evts : List XEvent, (∀ e ∈ evts, isFlashStartEvent e = false) →
      ∀ rs, parseFlashRegionsFromXml evts = .ok rs → rs = [] := by
  constructor
  · rfl
  · intro evts h rs hok
    unfold parseFlashRegionsFromXml at hok
    rcases noFlashStart_foldl evts h (.running [] none) (by simp)
      with hf | hf | hf | hf <;> rw [hf] at hok
    · cases hok; rfl
    · cases hok; rfl
    · cases hok
    · cases hok

/-- C7 witness: the concrete document together with the no-flash theorem
applied to a single non-flash `ram` element. -/
theorem c7_flash_regions_witness :
    parseFlashRegionsFromXml concreteMapEvents
      = .ok [⟨0x08000000, 0x8000, some 0x400⟩] ∧
    ([] : List FlashRegion) = [] :=
  ⟨c7_flash_regions.1,
   c7_flash_regions.2
     [.startTag "memory" [("type", "ram"), ("start", "0x0"), ("length", "0x100")],
      .endTag "memory", .eof]
     (by decide) [] (by decide)⟩

/-- C10: while a flash `memory` element is being tracked, every text
node whose content parses as a hexadecimal number overwrites the
region's block size, with no check that the text sits inside a
`property name="blocksize"` element (here the two text nodes are bare
children of `memory` with no property element at all), and the last such
text node wins. -/
theorem c10_stray_text_blocksize (t1 t2 : String) (n1 n2 : Nat)
    (h1 : parseHexU64 t1 = some n1) (h2 : parseHexU64 t2 = some n2) :
    parseFlashRegionsFromXml
      [.startTag "memory" [("type", "flash"), ("start", "0x0"), ("length", "0x10")],
       .text t1, .text t2, .endTag "memory", .eof]
      = .ok [⟨0, 16, some n2⟩] := by
  have hscan : scanMemoryAttrs
      [("type", "flash"), ("start", "0x0"), ("length", "0x10")] 0 0 false
      = some (0, 16, true) := rfl
  simp [parseFlashRegionsFromXml, parseStep, hscan, h1, h2]

/-- C10 witness: two stray hexadecimal text nodes `10` and `20`; the
resulting block size is `0x20 = 32`. -/
theorem c10_stray_text_blocksize_witness :
    parseFlashRegionsFromXml
      [.startTag "memory" [("type", "flash"), ("start", "0x0"), ("length", "0x10")],
       .text "10", .text "20", .endTag "memory", .eof]
      = .ok [⟨0, 16, some 32⟩] :=
  c10_stray_text_blocksize "10" "20" 16 32 (by decide) (by decide)

/-! ## C8, C9: flash download orchestration -/

lemma land_xor_mask (x k m : Nat) (hk : k ≤ m) (hx : x < 2 ^ m) :
    x &&& ((2 ^ m - 1) ^^^ (2 ^ k - 1)) = 2 ^ k * (x / 2 ^ k) := by
  apply Nat.eq_of_testBit_eq
  intro i
  rw [Nat.testBit_land, Nat.testBit_xor, Nat.testBit_two_pow_sub_one,
    Nat.testBit_two_pow_sub_one]
  have hr : 2 ^ k * (x / 2 ^ k) = (x >>> k) <<< k := by
    rw [Nat.shiftLeft_eq, Nat.shiftRight_eq_div_pow, Nat.mul_comm]
  rw [hr, Nat.testBit_shiftLeft, Nat.testBit_shiftRight]
  rcases Nat.lt_or_ge i k with h1 | h1
  · have him : i < m := Nat.lt_of_lt_of_le h1 hk
    simp [him, h1, Nat.not_le.mpr h1]
  · rcases Nat.lt_or_ge i m with h2 | h2
    · have hik : k + (i - k) = i := by omega
      simp [h2, Nat.not_lt.mpr h1, h1, hik]
    · have hbit : x.testBit i = false :=
        Nat.testBit_eq_false_of_lt
          (lt_of_lt_of_le hx (Nat.pow_le_pow_right (by norm_num) h2))
      have him : ¬ i < m := Nat.not_lt.mpr h2
      have hikn : ¬ i < k := by omega
      simp [him, hikn, hbit, h1, Nat.sub_add_cancel]

lemma alignUp_pow2 (v k : Nat) (hk : k < 32) (hv : v + 2 ^ k ≤ 2 ^ 32) :
    alignUp v (2 ^ k) = roundUpTo v (2 ^ k) := by
  have e32 : (2 : Nat) ^ 32 = 4294967296 := by norm_num
  have h2k : (2 : Nat) ^ k < 2 ^ 32 := Nat.pow_lt_pow_right (by norm_num) hk
  have hp : 1 ≤ (2 : Nat) ^ k := Nat.one_le_two_pow
  have h1 : (2 ^ k + (2 ^ 32 - 1)) % 2 ^ 32 = 2 ^ k - 1 := by
    rw [e32] at h2k ⊢
    omega
  have h2 : (v + 2 ^ k + (2 ^ 32 - 1)) % 2 ^ 32 = v + 2 ^ k - 1 := by
    rw [e32] at hv ⊢
    omega
  unfold alignUp roundUpTo
  rw [h1, h2, land_xor_mask (v + 2 ^ k - 1) k 32 (Nat.le_of_lt hk) (by omega)]

lemma writeLoop_actions (segs : List FlashSeg) (writeOk : Nat → Bool) :
    ∀ fuel i wrote, segs.length - i ≤ fuel →
      ∀ a ∈ (writeLoop segs writeOk i wrote).1,
        (∃ s d c, a = OrcAction.write s d c) ∨ ∃ p, a = OrcAction.setpos p := by
  intro fuel
  induction fuel with
  | zero =>
    intro i wrote hf a ha
    have hd : (fetchSeg segs i).data.length = 0 := by
      have hle : segs.length ≤ i := by omega
      rw [fetchSeg, List.getD_eq_default _ _ hle]
      rfl
    rw [writeLoop, dif_pos hd] at ha
    simp at ha
  | succ fuel ih =>
    intro i wrote hf a ha
    rw [writeLoop] at ha
    by_cases hd : (fetchSeg segs i).data.length = 0
    · rw [dif_pos hd] at ha
      simp at ha
    · rw [dif_neg hd] at ha
      have hi : i < segs.length := by
        by_contra hge
        exact hd (by
          rw [fetchSeg, List.getD_eq_default _ _ (Nat.le_of_not_lt hge)]
          rfl)
      by_cases hw : writeOk i
      · simp only [hw, not_true_eq_false, if_false] at ha
        by_cases hz : (fetchSeg segs i).actSize = 0
        · rw [if_pos hz] at ha
          simp only [List.mem_singleton] at ha
          exact .inl ⟨_, _, _, ha⟩
        · rw [if_neg hz] at ha
          rcases hrec : writeLoop segs writeOk (i + 1)
              ((wrote + (fetchSeg segs i).data.length) % 2 ^ 32) with ⟨tr, r⟩
          rw [hrec] at ha
          simp only [List.mem_cons] at ha
          rcases ha with rfl | rfl | ha
          · exact .inl ⟨_, _, _, rfl⟩
          · exact .inr ⟨_, rfl⟩
          · have := ih (i + 1)
              ((wrote + (fetchSeg segs i).data.length) % 2 ^ 32)
              (by omega) a (by rw [hrec]; exact ha)
            exact this
      · rw [if_pos hw] at ha
        simp only [List.mem_singleton] at ha
        exact .inl ⟨_, _, _, ha⟩

lemma writeLoop_result (segs : List FlashSeg) (writeOk : Nat → Bool) :
    ∀ fuel i wrote, segs.length - i ≤ fuel →
      ∀ r, (writeLoop segs writeOk i wrote).2 = some r →
        r = OrcResult.agNoAccess ∨ r = OrcResult.panicked := by
  intro fuel
  induction fuel with
  | zero =>
    intro i wrote hf r hr
    have hd : (fetchSeg segs i).data.length = 0 := by
      have hle : segs.length ≤ i := by omega
      rw [fetchSeg, List.getD_eq_default _ _ hle]
      rfl
    rw [writeLoop, dif_pos hd] at hr
    simp at hr
  | succ fuel ih =>
    intro i wrote hf r hr
    rw [writeLoop] at hr
    by_cases hd : (fetchSeg segs i).data.length = 0
    · rw [dif_pos hd] at hr
      simp at hr
    · rw [dif_neg hd] at hr
      have hi : i < segs.length := by
        by_contra hge
        exact hd (by
          rw [fetchSeg, List.getD_eq_default _ _ (Nat.le_of_not_lt hge)]
          rfl)
      by_cases hw : writeOk i
      · simp only [hw, not_true_eq_false, if_false] at hr
        by_cases hz : (fetchSeg segs i).actSize = 0
        · rw [if_pos hz] at hr
          simp only [Option.some.injEq] at hr
          exact .inr hr.symm
        · rw [if_neg hz] at hr
          rcases hrec : writeLoop segs writeOk (i + 1)
              ((wrote + (fetchSeg segs i).data.length) % 2 ^ 32) with ⟨tr, r2⟩
          rw [hrec] at hr
          exact ih (i + 1) ((wrote + (fetchSeg segs i).data.length) % 2 ^ 32)
            (by omega) r (by rw [hrec]; exact hr)
      · rw [if_pos hw] at hr
        simp only [Option.some.injEq] at hr
        exact .inl hr.symm

lemma writeLoop_no_erase (segs : List FlashSeg) (writeOk : Nat → Bool)
    (i wrote : Nat) :
    ∀ a l, OrcAction.erase a l ∉ (writeLoop segs writeOk i wrote).1 := by
  intro a l hmem
  rcases writeLoop_actions segs writeOk segs.length i wrote (by omega) _ hmem
    with ⟨s, d, c, h⟩ | ⟨p, h⟩
  · exact OrcAction.noConfusion h
  · exact OrcAction.noConfusion h

lemma writeLoop_no_kill (segs : List FlashSeg) (writeOk : Nat → Bool)
    (i wrote : Nat) :
    OrcAction.progressKill ∉ (writeLoop segs writeOk i wrote).1 := by
  intro hmem
  rcases writeLoop_actions segs writeOk segs.length i wrote (by omega) _ hmem
    with ⟨s, d, c, h⟩ | ⟨p, h⟩
  · exact OrcAction.noConfusion h
  · exact OrcAction.noConfusion h

lemma writeLoop_no_disconnect (segs : List FlashSeg) (writeOk : Nat → Bool)
    (i wrote : Nat) :
    OrcAction.disconnect ∉ (writeLoop segs writeOk i wrote).1 := by
  intro hmem
  rcases writeLoop_actions segs writeOk segs.length i wrote (by omega) _ hmem
    with ⟨s, d, c, h⟩ | ⟨p, h⟩
  · exact OrcAction.noConfusion h
  · exact OrcAction.noConfusion h

/-- C8 (amended): when region discovery succeeds with a first region
whose block size (defaulted to 1024 and truncated to `u32`) is a power of
two `2^k` (`k < 32`, the `debug_assert` of `align_up`), the first
segment is nonempty, and the aligned size does not overflow `u32`, the
flash-download sequence issues exactly one erase command, immediately
after the `Init` progress report and before any write, at the first
segment's start address, with the first segment's declared total size
rounded up to the block-size boundary; no later action is an erase.  (For
non-power-of-two block sizes the bitmask arithmetic of `align_up` does
not round up, see the counterexample.) -/
theorem c8_single_erase (reg : FlashRegion) (regs : List FlashRegion)
    (segs : List FlashSeg) (eraseOk : Bool) (writeOk : Nat → Bool)
    (doneOk : Bool) (k : Nat) (hk : k < 32)
    (hbs : reg.blocksize.getD 1024 % 2 ^ 32 = 2 ^ k)
    (hnz : (fetchSeg segs 0).data.length ≠ 0)
    (hov : (fetchSeg segs 0).actSize + 2 ^ k ≤ 2 ^ 32) :
    ∃ tail,
      (doFlashLoadInternal (some (reg :: regs)) segs eraseOk writeOk doneOk).1
        = OrcAction.progressInit :: OrcAction.erase (fetchSeg segs 0).start
            (roundUpTo (fetchSeg segs 0).actSize (2 ^ k)) :: tail ∧
      ∀ a l, OrcAction.erase a l ∉ tail := by
  simp only [doFlashLoadInternal]
  rw [hbs, alignUp_pow2 _ k hk hov, if_pos hnz]
  by_cases he : eraseOk
  · rw [if_neg (by simp [he])]
    rcases hwl : writeLoop segs writeOk 0 0 with ⟨tr, ro⟩
    have hno : ∀ a l, OrcAction.erase a l ∉ tr := by
      intro a l hm
      exact writeLoop_no_erase segs writeOk 0 0 a l (by rw [hwl]; exact hm)
    cases ro with
    | some r =>
      refine ⟨tr, by simp, hno⟩
    | none =>
      dsimp only
      by_cases hdone : doneOk
      · rw [if_neg (by simp [hdone])]
        refine ⟨tr ++ [.flashDone, .progressKill], by simp, ?_⟩
        intro a l hm
        rcases List.mem_append.mp hm with hm | hm
        · exact hno a l hm
        · simp at hm
      · rw [if_pos (by simp [hdone])]
        refine ⟨tr ++ [.flashDone], by simp, ?_⟩
        intro a l hm
        rcases List.mem_append.mp hm with hm | hm
        · exact hno a l hm
        · simp at hm
  · rw [if_pos ⟨hnz, by simp [he]⟩]
    exact ⟨[], by simp, by intro a l hm; simp at hm⟩

/-- C8 witness: one flash region with block size 1024 = 2^10 and a
single 1-byte first segment declaring 100 total bytes. -/
theorem c8_single_erase_witness :
    ∃ tail,
      (doFlashLoadInternal (some [⟨0, 16, some 1024⟩]) [⟨0, [5], 100⟩]
          true (fun _ => true) true).1
        = OrcAction.progressInit :: OrcAction.erase 0 (roundUpTo 100 (2 ^ 10)) :: tail ∧
      ∀ a l, OrcAction.erase a l ∉ tail :=
  c8_single_erase ⟨0, 16, some 1024⟩ [] [⟨0, [5], 100⟩] true (fun _ => true)
    true 10 (by decide) (by decide) (by decide) (by decide)

/-- C8 counterexample: with a (non-power-of-two) block size of 3 and a
first segment declaring 1 total byte, the erase length issued is
`align_up(1, 3) = 1`, not the block-size-boundary rounding `3` the claim
demands; the bitmask arithmetic only rounds up for power-of-two block
sizes. -/
theorem c8_erase_length_counterexample :
    (doFlashLoadInternal (some [⟨0, 16, some 3⟩]) [⟨0, [1], 1⟩]
        true (fun _ => true) true).1
      = [.progressInit, .erase 0 1, .write 0 [1] 256, .setpos 100,
         .flashDone, .progressKill] ∧
    roundUpTo 1 3 = 3 ∧
    OrcAction.erase 0 1 ≠ OrcAction.erase 0 (roundUpTo 1 3) := by
  have hwl : writeLoop [(⟨0, [1], 1⟩ : FlashSeg)] (fun _ => true) 0 0
      = ([.write 0 [1] 256, .setpos 100], none) := by
    rw [writeLoop]
    norm_num [fetchSeg]
    rw [writeLoop]
    norm_num [fetchSeg]
  have hau : alignUp 1 3 = 1 := by decide
  refine ⟨?_, by decide, by decide⟩
  simp [doFlashLoadInternal, hwl, fetchSeg, hau]

lemma startFlashLoad_eq (info : Option (List FlashRegion))
    (segs : List FlashSeg) (eraseOk : Bool) (writeOk : Nat → Bool)
    (doneOk : Bool)
    (hp : (doFlashLoadInternal info segs eraseOk writeOk doneOk).2
      ≠ .panicked) :
    startFlashLoad info segs eraseOk writeOk doneOk
      = ((doFlashLoadInternal info segs eraseOk writeOk doneOk).1
          ++ [.disconnect],
         (doFlashLoadInternal info segs eraseOk writeOk doneOk).2) := by
  rcases hint : doFlashLoadInternal info segs eraseOk writeOk doneOk
    with ⟨tr, r⟩
  rw [hint] at hp
  unfold startFlashLoad
  rw [hint]
  cases r with
  | agOk => rfl
  | agNoAccess => rfl
  | panicked => exact absurd rfl hp

lemma internal_kill_iff (info : Option (List FlashRegion))
    (segs : List FlashSeg) (eraseOk : Bool) (writeOk : Nat → Bool)
    (doneOk : Bool) :
    OrcAction.disconnect
        ∉ (doFlashLoadInternal info segs eraseOk writeOk doneOk).1 ∧
    (OrcAction.progressKill
        ∈ (doFlashLoadInternal info segs eraseOk writeOk doneOk).1
      ↔ (doFlashLoadInternal info segs eraseOk writeOk doneOk).2 = .agOk) := by
  cases info with
  | none => simp [doFlashLoadInternal]
  | some infs =>
    cases infs with
    | nil => simp [doFlashLoadInternal]
    | cons inf rest =>
      simp only [doFlashLoadInternal]
      rcases hwl : writeLoop segs writeOk 0 0 with ⟨tr, ro⟩
      have hnd : OrcAction.disconnect ∉ tr := by
        have h0 := writeLoop_no_disconnect segs writeOk 0 0
        rw [hwl] at h0
        exact h0
      have hnk : OrcAction.progressKill ∉ tr := by
        have h0 := writeLoop_no_kill segs writeOk 0 0
        rw [hwl] at h0
        exact h0
      by_cases hnz : (fetchSeg segs 0).data.length ≠ 0
      · rw [if_pos hnz]
        by_cases he : eraseOk
        · rw [if_neg (by simp [he])]
          cases ro with
          | some r =>
            dsimp only
            have hr := writeLoop_result segs writeOk segs.length 0 0
              (by omega) r (by rw [hwl])
            rcases hr with rfl | rfl <;> simp [hnd, hnk]
          | none =>
            dsimp only
            by_cases hdone : doneOk
            · rw [if_neg (by simp [hdone])]
              simp [hnd, hnk]
            · rw [if_pos (by simp [hdone])]
              simp [hnd, hnk]
        · rw [if_pos ⟨hnz, by simp [he]⟩]
          simp
      · rw [if_neg (by simp [hnz]), if_neg (by simp [hnz])]
        cases ro with
        | some r =>
          dsimp only
          have hr := writeLoop_result segs writeOk segs.length 0 0
            (by omega) r (by rw [hwl])
          rcases hr with rfl | rfl <;> simp [hnd, hnk]
        | none =>
          dsimp only
          by_cases hdone : doneOk
          · rw [if_neg (by simp [hdone])]
            simp [hnd, hnk]
          · rw [if_pos (by simp [hdone])]
            simp [hnd, hnk]

/-- C9: the `Kill` progress report appears in the flash-download
sequence's action trace exactly when the sequence returns `AG_OK`; the
sequence itself never disconnects (no `disconnect` action in its trace);
and whenever the sequence returns (rather than panicking on the
zero-`act_size` division), `start_flash_load` appends exactly one
unconditional disconnect after the returned trace, on success and
failure alike. -/
theorem c9_kill_only_on_success (info : Option (List FlashRegion))
    (segs : List FlashSeg) (eraseOk : Bool) (writeOk : Nat → Bool)
    (doneOk : Bool) :
    OrcAction.disconnect
        ∉ (doFlashLoadInternal info segs eraseOk writeOk doneOk).1 ∧
    (OrcAction.progressKill
        ∈ (doFlashLoadInternal info segs eraseOk writeOk doneOk).1
      ↔ (doFlashLoadInternal info segs eraseOk writeOk doneOk).2 = .agOk) ∧
    ((doFlashLoadInternal info segs eraseOk writeOk doneOk).2 ≠ .panicked →
      startFlashLoad info segs eraseOk writeOk doneOk
        = ((doFlashLoadInternal info segs eraseOk writeOk doneOk).1
            ++ [.disconnect],
           (doFlashLoadInternal info segs eraseOk writeOk doneOk).2)) :=
  ⟨(internal_kill_iff info segs eraseOk writeOk doneOk).1,
   (internal_kill_iff info segs eraseOk writeOk doneOk).2,
   startFlashLoad_eq info segs eraseOk writeOk doneOk⟩

/-- C9 witness: a run with one empty segment list (erase skipped, write
loop empty, finalize succeeds): the internal trace ends with `Kill`, the
result is `AG_OK`, and `start_flash_load` appends the disconnect. -/
theorem c9_kill_only_on_success_witness :
    OrcAction.disconnect
        ∉ (doFlashLoadInternal (some [⟨0, 16, some 1024⟩]) [] true
            (fun _ => true) true).1 ∧
    (OrcAction.progressKill
        ∈ (doFlashLoadInternal (some [⟨0, 16, some 1024⟩]) [] true
            (fun _ => true) true).1
      ↔ (doFlashLoadInternal (some [⟨0, 16, some 1024⟩]) [] true
            (fun _ => true) true).2 = .agOk) ∧
    ((doFlashLoadInternal (some [⟨0, 16, some 1024⟩]) [] true
          (fun _ => true) true).2 ≠ .panicked →
      startFlashLoad (some [⟨0, 16, some 1024⟩]) [] true (fun _ => true) true
        = ((doFlashLoadInternal (some [⟨0, 16, some 1024⟩]) [] true
              (fun _ => true) true).1 ++ [.disconnect],
           (doFlashLoadInternal (some [⟨0, 16, some 1024⟩]) [] true
              (fun _ => true) true).2)) :=
  c9_kill_only_on_success (some [⟨0, 16, some 1024⟩]) [] true
    (fun _ => true) true
